import Mathlib

/-!
Verification development for the PyMC3 backend of the bambi package
(src/bambi/backends.py).  The backend translates a declarative
mixed-effects model into a probabilistic model: it resolves prior
specifications into distribution objects registered inside an active
model scope, accumulates every term's contribution into a linear
predictor `mu`, attaches the observation likelihood, and drives
sampling.

The embedding below follows the source line by line:

* `Val` models PyMC3 distribution objects (and plain numeric arguments);
  constructing one registers it in the active model scope, which we keep
  as the `scope` list of `BState`.
* `TValues` models the numpy design tensors carried by terms, with the
  handful of numpy operations the backend uses (`shape`, slicing
  `[:, :, i]`, `any(0)` column masks, boolean-mask column selection,
  `squeeze`).
* `processTerm` is the body of the `for t in model.terms.values()` loop
  of `PyMC3BackEnd.build`, `buildCore`/`build` the whole build pass, and
  `run` the sampling entry point (`pm.sample` is abstracted by an
  `engine` argument).
-/

set_option linter.unusedVariables false

namespace Bambi

/-- A value appearing in a prior's keyword-argument mapping: either a plain
number, or an already built distribution object (as when a sigma
distribution is injected as the `sd` argument of another prior).  A built
distribution records the label it was registered under, its family name,
the optional `shape` keyword, and the remaining keyword arguments. -/
inductive Val where
  | num : Int → Val
  | distV : String → String → Option Nat → List (String × Val) → Val

/-- The family name of a built distribution (empty for plain numbers). -/
def Val.familyOf : Val → String
  | .num _ => ""
  | .distV _ f _ _ => f

/-- The `shape` keyword a distribution was built with, if any. -/
def Val.shapeOf : Val → Option Nat
  | .num _ => none
  | .distV _ _ sh _ => sh

/-- The keyword arguments a distribution was built with. -/
def Val.argsOf : Val → List (String × Val)
  | .num _ => []
  | .distV _ _ _ a => a

/-- A numpy tensor as carried in `t.values`: 0-, 1-, 2- or 3-dimensional,
with integer entries (entry values only matter through being zero or
nonzero, and through the dot products accumulated into `mu`). -/
inductive TValues where
  | scalar : Int → TValues
  | vec : List Int → TValues
  | mat : List (List Int) → TValues
  | cube : List (List (List Int)) → TValues

/-- The numpy `shape` tuple of a tensor. -/
def tshape : TValues → List Nat
  | .scalar _ => []
  | .vec v => [v.length]
  | .mat m => [m.length, (m.headD []).length]
  | .cube c => [c.length, (c.headD []).length, ((c.headD []).headD []).length]

/-- `shape[-1]`, the last dimension of a tensor (1 on a 0-d tensor, a case
the backend never reaches because `shape[1]` is read first). -/
def lastDim (t : TValues) : Nat := (tshape t).getLastD 1

/-- Number of rows of a 2-d matrix. -/
def matRows (m : List (List Int)) : Nat := m.length

/-- Number of columns of a (rectangular) 2-d matrix. -/
def matCols (m : List (List Int)) : Nat := (m.headD []).length

/-- Third dimension (number of level slices) of a 3-d tensor. -/
def cubeLevs (c : List (List (List Int))) : Nat :=
  ((c.headD []).headD []).length

/-- The 2-d slice `t.values[:, :, i]` of a 3-d tensor. -/
def sliceLevel (c : List (List (List Int))) (i : Nat) : List (List Int) :=
  c.map (fun row => row.map (fun cell => cell.getD i 0))

/-- Column `j` of `m` is active when some row holds a nonzero entry there:
entry `j` of the boolean mask `m.any(0)`. -/
def colActive (m : List (List Int)) (j : Nat) : Bool :=
  m.any (fun row => row.getD j 0 != 0)

/-- The number of `True` entries of the mask `m.any(0)`, which is
`selected.shape[1]` after boolean-mask column selection. -/
def countActive (m : List (List Int)) : Nat :=
  ((List.range (matCols m)).filter (colActive m)).length

/-- Boolean-mask column selection `m[:, m.any(0)]`: every row restricted
to the active columns. -/
def selectCols (m : List (List Int)) : List (List Int) :=
  m.map (fun row => (List.range (matCols m)).filterMap
    (fun j => if colActive m j then some (row.getD j 0) else none))

/-- `np.squeeze`: drop every axis of size 1. -/
def squeezeT : TValues → TValues
  | .scalar x => .scalar x
  | .vec v => if v.length = 1 then .scalar (v.getD 0 0) else .vec v
  | .mat m =>
    if m.length = 1 then
      if (m.headD []).length = 1 then .scalar ((m.headD []).getD 0 0)
      else .vec (m.headD [])
    else if (m.headD []).length = 1 then .vec (m.map (fun row => row.getD 0 0))
    else .mat m
  | .cube c =>
    if c.length = 1 then
      if (c.headD []).length = 1 then
        if ((c.headD []).headD []).length = 1 then
          .scalar (((c.headD []).headD []).getD 0 0)
        else .vec ((c.headD []).headD [])
      else
        if ((c.headD []).headD []).length = 1 then
          .vec ((c.headD []).map (fun cell => cell.getD 0 0))
        else .mat (c.headD [])
    else
      if (c.headD []).length = 1 then
        if ((c.headD []).headD []).length = 1 then
          .vec (c.map (fun row => (row.headD []).getD 0 0))
        else .mat (c.map (fun row => row.headD []))
      else
        if ((c.headD []).headD []).length = 1 then
          .mat (c.map (fun row => row.map (fun cell => cell.getD 0 0)))
        else .cube c

/-- Dot product of one matrix row with a vector of effect values. -/
def dotRow (row uvals : List Int) : Int :=
  (List.zipWith (fun a b => a * b) row uvals).sum

/-- Matrix-vector product, the semantics of `pm.dot(m, u)` once the effect
vector `u` takes concrete values `uvals`. -/
def matVec (m : List (List Int)) (uvals : List Int) : List Int :=
  m.map (fun row => dotRow row uvals)

/-- A grouping factor: the ordered level names of `t.split_by.levels`. -/
structure GroupingFactor where
  levels : List String

/-- The nested sigma specification `t.prior['sigma']`; either field may be
missing, in which case the corresponding dictionary access raises. -/
structure SigmaSpec where
  name : Option String
  args : Option (List (String × Val))

/-- A term's prior specification `t.prior`: required `name` and `args`
entries plus the optional nested `sigma` entry. -/
structure Prior where
  name : String
  args : List (String × Val)
  sigma : Option SigmaSpec

/-- One model term, as consumed by `PyMC3BackEnd.build`. -/
structure Term where
  label : String
  values : TValues
  random : Bool
  split_by : Option GroupingFactor
  prior : Prior

/-- The model handed to `build`: its terms in enumeration order and the
observed response vector `model.y.values`. -/
structure ModelSpec where
  terms : List Term
  yvalues : List Int

/-- The distribution families exported by the `pymc3` module, as probed by
`hasattr(pm, dist)`. -/
def pmAttrs : List String :=
  ["Normal", "HalfNormal", "HalfCauchy", "Cauchy", "Uniform", "Flat",
   "Beta", "Gamma", "Exponential", "Laplace", "StudentT", "Bound",
   "Bernoulli", "Binomial", "Poisson", "Categorical", "Dirichlet",
   "MvNormal"]

/-- `hasattr(pm, family)`. -/
def pmHasAttr (family : String) : Bool := pmAttrs.contains family

/-- The exceptions the build pass can raise: the `ValueError` of
`_build_dist` naming an unknown distribution family, and the numpy
`IndexError` raised by an out-of-range shape or level access. -/
inductive BuildError where
  | unknownDistribution : String → BuildError
  | indexError : BuildError

/-- A posterior trace: per registered variable, its draws. -/
abbrev Trace := List (String × List Int)

/-- One contribution accumulated into `mu` by `self.mu += ...`. -/
inductive Contrib where
  | dotU : TValues → Val → Contrib
  | dotCol : TValues → Val → Contrib

/-- The observation likelihood `pm.Normal('y_pred', mu=self.mu, sd=sigma,
observed=y)` attached at the end of a successful build. -/
structure Likelihood where
  label : String
  mu : List Contrib
  sd : Val
  observed : List Int

/-- The state accumulated inside one `pm.Model` scope: the distributions
registered in the scope, the running linear predictor `mu` (as the list
of added contributions, the empty list standing for the initial scalar
`0.`), the (never written) `dists` and `shared_params` registries, and
the likelihood node once attached. -/
structure BState where
  scope : List Val
  mu : List Contrib
  dists : List (String × Val)
  shared_params : List (String × Val)
  yobs : Option Likelihood

/-- The state `reset()` installs: fresh `pm.Model()` scope, `mu = 0.`,
empty `dists` and `shared_params`. -/
def BState.empty : BState := ⟨[], [], [], [], none⟩

/-- Register one more distribution in the active model scope. -/
def addScope (st : BState) (d : Val) : BState :=
  { st with scope := st.scope ++ [d] }

/-- `self.mu += contribution`. -/
def addMu (st : BState) (c : Contrib) : BState :=
  { st with mu := st.mu ++ [c] }

/-- `PyMC3BackEnd._build_dist`: resolve the family name through
`hasattr(pm, dist)` and construct (thereby registering) the distribution,
or raise the `ValueError` naming the missing family. -/
def buildDistS (st : BState) (label family : String) (shape : Option Nat)
    (args : List (String × Val)) : BState × Except BuildError Val :=
  if pmHasAttr family then
    (addScope st (.distV label family shape args),
     .ok (.distV label family shape args))
  else (st, .error (.unknownDistribution family))

/-- First value stored under `k` in a keyword mapping. -/
def lookupKey (k : String) : List (String × Val) → Option Val
  | [] => none
  | p :: rest => if p.1 = k then some p.2 else lookupKey k rest

/-- Python dictionary assignment `m[k] = v`: overwrite the entry in place
when the key exists, append it otherwise. -/
def setKey : List (String × Val) → String → Val → List (String × Val)
  | [], k, v => [(k, v)]
  | p :: rest, k, v => if p.1 = k then (k, v) :: rest else p :: setKey rest k v

/-- Python dictionary `kwargs.pop(k, d)` restricted to the leftover
mapping: every entry except the one keyed `k`. -/
def eraseKey (k : String) (m : List (String × Val)) : List (String × Val) :=
  m.filter (fun p => !(p.1 == k))

/-- The default group-level sigma arguments, `{'beta': 10}`. -/
def defaultSigmaArgs : List (String × Val) := [("beta", Val.num 10)]

/-- Lines 65-70 of the source: attempt to read `t.prior['sigma']['name']`
and `t.prior['sigma']['args']` inside one `try`; if either access fails,
fall back to the complete default `('HalfCauchy', {'beta': 10})`. -/
def resolveSigma (p : Prior) : String × List (String × Val) :=
  match p.sigma with
  | some s =>
    match s.name, s.args with
    | some n, some a => (n, a)
    | _, _ => ("HalfCauchy", defaultSigmaArgs)
  | none => ("HalfCauchy", defaultSigmaArgs)

/-- The sigma sub-specification is absent or lacks one of its fields, so
reading it raises and the default is substituted. -/
def sigmaIncomplete (p : Prior) : Bool :=
  match p.sigma with
  | some s => s.name.isNone || s.args.isNone
  | none => true

/-- The per-level loop of the random/`split_by` branch (source lines
80-91): for each level index, compute the active-column mask of the
level's slice, select those columns, build the level's sigma and effect
vector (the latter shaped to the selected column count), and add
`pm.dot(selected, u)[:, None]` to `mu`. -/
def processLevels (label sname dname : String)
    (sargs dargs : List (String × Val))
    (c : List (List (List Int))) (levels : List String) :
    List Nat → BState → BState × Except BuildError Unit
  | [], st => (st, .ok ())
  | i :: rest, st =>
    match levels[i]? with
    | none => (st, .error .indexError)
    | some lev =>
      match buildDistS st ("sigma_" ++ (label ++ "_" ++ lev)) sname none
            sargs with
      | (st1, .error e) => (st1, .error e)
      | (st1, .ok _) =>
        match buildDistS st1 ("u_" ++ (label ++ "_" ++ lev)) dname
              (some (countActive (sliceLevel c i))) dargs with
        | (st2, .error e) => (st2, .error e)
        | (st2, .ok u) =>
          processLevels label sname dname sargs dargs c levels rest
            (addMu st2 (.dotCol (.mat (selectCols (sliceLevel c i))) u))

/-- The body of `for t in model.terms.values()` in `PyMC3BackEnd.build`
(source lines 53-99).  Returns the state after the term and, on success,
the term as the caller now sees it (its `values` squeezed in place on the
fixed/`split_by` path, its `prior['args']` extended with `sd` on the
ungrouped random path). -/
def processTerm (st : BState) (t : Term) : BState × Except BuildError Term :=
  match (tshape t.values)[1]? with
  | none => (st, .error .indexError)
  | some n_cols =>
    let label := t.label
    let dist_name := t.prior.name
    let dist_args := t.prior.args
    if t.random then
      let sp := resolveSigma t.prior
      match t.split_by with
      | none =>
        match buildDistS st ("sigma_" ++ label) sp.1 none sp.2 with
        | (st1, .error e) => (st1, .error e)
        | (st1, .ok sigma) =>
          let args2 := setKey dist_args "sd" sigma
          match buildDistS st1 ("u_" ++ label) dist_name (some n_cols)
                args2 with
          | (st2, .error e) => (st2, .error e)
          | (st2, .ok u) =>
            (addMu st2 (.dotU t.values u),
             .ok { t with prior := { t.prior with args := args2 } })
      | some g =>
        match t.values with
        | .cube c =>
          match processLevels label sp.1 dist_name sp.2 dist_args c
                g.levels (List.range (cubeLevs c)) st with
          | (st1, .ok _) => (st1, .ok t)
          | (st1, .error e) => (st1, .error e)
        | .mat m =>
          if matCols m = 0 then (st, .ok t) else (st, .error .indexError)
        | .vec v =>
          if v.length = 0 then (st, .ok t) else (st, .error .indexError)
        | .scalar _ => (st, .error .indexError)
    else
      match buildDistS st ("b_" ++ label) dist_name
            (some (lastDim t.values)) dist_args with
      | (st1, .error e) => (st1, .error e)
      | (st1, .ok b) =>
        let newvals :=
          if t.split_by.isSome then squeezeT t.values else t.values
        (addMu st1 (.dotCol newvals b), .ok { t with values := newvals })

/-- The whole term loop, threading the state and collecting the (possibly
mutated) terms; an exception aborts the loop, leaving the state as
accumulated so far. -/
def processTerms : BState → List Term → BState × Except BuildError (List Term)
  | st, [] => (st, .ok [])
  | st, t :: rest =>
    match processTerm st t with
    | (st1, .error e) => (st1, .error e)
    | (st1, .ok t') =>
      match processTerms st1 rest with
      | (st2, .error e) => (st2, .error e)
      | (st2, .ok rest') => (st2, .ok (t' :: rest'))

/-- The build pass on an already chosen starting state: the term loop
followed by the residual sigma (built from the external `default_priors`
table, passed here as `dp`) and the observation likelihood. -/
def buildCore (dp : String × List (String × Val)) (m : ModelSpec)
    (st : BState) : BState × Except BuildError (List Term) :=
  match processTerms st m.terms with
  | (st1, .error e) => (st1, .error e)
  | (st1, .ok ts) =>
    match buildDistS st1 "sigma" dp.1 none dp.2 with
    | (st2, .error e) => (st2, .error e)
    | (st2, .ok sg) =>
      ({ st2 with yobs := some ⟨"y_pred", st2.mu, sg, m.yvalues⟩ }, .ok ts)

/-- The backend object: its model-scope state plus the `trace` attribute
written by `run` (absent until the first `run`). -/
structure Backend where
  state : BState
  trace : Option Trace

/-- The backend right after `__init__` (which calls `reset`). -/
def Backend.init : Backend := ⟨BState.empty, none⟩

/-- `PyMC3BackEnd.reset`: a fresh `pm.Model()` scope with `mu = 0.` and
empty registries; the `trace` attribute is not touched. -/
def resetB (b : Backend) : Backend := ⟨BState.empty, b.trace⟩

/-- `PyMC3BackEnd.build(model, reset)`: optionally reset, then run the
build pass. -/
def build (dp : String × List (String × Val)) (m : ModelSpec) (b : Backend)
    (reset : Bool) : Backend × Except BuildError (List Term) :=
  let st0 := if reset then BState.empty else b.state
  let res := buildCore dp m st0
  (⟨res.1, b.trace⟩, res.2)

/-- `PyMC3BackEnd.run(**kwargs)`: pop `samples` (default 1000), call the
sampling engine with it and the remaining keywords, store the trace on
the backend — and return `None` (the Python function has no return
statement), modelled by the `none` in the second component. -/
def run (engine : Val → List (String × Val) → Trace)
    (kwargs : List (String × Val)) (b : Backend) : Backend × Option Trace :=
  ({ b with trace := some (engine
      ((lookupKey "samples" kwargs).getD (Val.num 1000))
      (eraseKey "samples" kwargs)) }, none)

/-! Helper descriptions of what one term contributes, used to state the
characterization lemmas below. -/

/-- The per-level name `'%s_%s' % (label, t.split_by.levels[i])`. -/
def levelName (label : String) (levels : List String) (i : Nat) : String :=
  label ++ "_" ++ (levels[i]?).getD ""

/-- The sigma distribution registered for level `i` of a grouped term. -/
def levelSigmaD (label : String) (sp : String × List (String × Val))
    (levels : List String) (i : Nat) : Val :=
  .distV ("sigma_" ++ levelName label levels i) sp.1 none sp.2

/-- The effect-vector distribution registered for level `i` of a grouped
term, shaped to the number of active columns of that level's slice. -/
def levelUD (label dname : String) (dargs : List (String × Val))
    (c : List (List (List Int))) (levels : List String) (i : Nat) : Val :=
  .distV ("u_" ++ levelName label levels i) dname
    (some (countActive (sliceLevel c i))) dargs

/-- The `mu` contribution `pm.dot(selected, u)[:, None]` of level `i`. -/
def levelContrib (label dname : String) (dargs : List (String × Val))
    (c : List (List (List Int))) (levels : List String) (i : Nat) : Contrib :=
  .dotCol (.mat (selectCols (sliceLevel c i)))
    (levelUD label dname dargs c levels i)

/-- The scope entries added by a grouped term: one (sigma, effect-vector)
pair per level index. -/
def scopeAdds (f g : Nat → Val) : List Nat → List Val
  | [] => []
  | i :: rest => f i :: g i :: scopeAdds f g rest

/-- The sigma distribution built on the ungrouped random path. -/
def noSplitSigmaD (t : Term) : Val :=
  .distV ("sigma_" ++ t.label) (resolveSigma t.prior).1 none
    (resolveSigma t.prior).2

/-- The term's argument mapping after `dist_args['sd'] = sigma`. -/
def noSplitArgs (t : Term) : List (String × Val) :=
  setKey t.prior.args "sd" (noSplitSigmaD t)

/-- The effect-vector distribution built on the ungrouped random path,
shaped to `n_cols` and carrying the injected sigma under `sd`. -/
def noSplitUD (t : Term) (k : Nat) : Val :=
  .distV ("u_" ++ t.label) t.prior.name (some k) (noSplitArgs t)

/-- The coefficient distribution built on the fixed-effect path, shaped
to `t.values.shape[-1]` as read before any squeeze. -/
def fixedBD (t : Term) : Val :=
  .distV ("b_" ++ t.label) t.prior.name (some (lastDim t.values)) t.prior.args

/-- The term's values as used in the fixed-path dot product: squeezed
exactly when a `split_by` factor is present. -/
def fixedVals (t : Term) : TValues :=
  if t.split_by.isSome then squeezeT t.values else t.values

/-! Concrete inputs used to instantiate the theorems below on closed
terms. -/

/-- A grouped random-effect term: 2 rows, 2 columns, 2 levels; at level
`a` only column 0 is active, at level `b` only column 1. -/
def tC1 : Term :=
  ⟨"g", .cube [[[1, 0], [0, 2]], [[3, 0], [0, 0]]], true,
   some ⟨["a", "b"]⟩, ⟨"Normal", [], none⟩⟩

/-- A fixed-effect term with a `split_by` factor whose values have shape
(2, 3, 1): the trailing singleton axis makes the pre-squeeze and
post-squeeze last dimensions differ (1 vs 3). -/
def tC2 : Term :=
  ⟨"x", .cube [[[1], [2], [3]], [[4], [5], [6]]], false, some ⟨["a"]⟩,
   ⟨"Normal", [], none⟩⟩

/-- A fixed-effect term with a `split_by` factor whose values have shape
(2, 1, 2), the typical per-group interaction layout. -/
def tC2w : Term :=
  ⟨"w", .cube [[[1, 2]], [[3, 4]]], false, some ⟨["a", "b"]⟩,
   ⟨"Normal", [], none⟩⟩

/-- An ungrouped random-effect term with a partial sigma override (name
given, args missing): the whole override must be discarded. -/
def tC3 : Term :=
  ⟨"v", .mat [[1, 0], [0, 1], [2, 2]], true, none,
   ⟨"Normal", [], some ⟨some "HalfNormal", none⟩⟩⟩

/-- A grouped random-effect term (2 rows, 2 columns, 1 level) with a
partial sigma override (args given, name missing): the whole override
must be discarded on the grouped path as well. -/
def tC3g : Term :=
  ⟨"vg", .cube [[[5], [0]], [[0], [7]]], true, some ⟨["a"]⟩,
   ⟨"Normal", [], some ⟨none, some []⟩⟩⟩

/-- An ungrouped random-effect term with a complete sigma override. -/
def tC4 : Term :=
  ⟨"x4", .mat [[1, 2], [3, 4]], true, none,
   ⟨"Normal", [], some ⟨some "HalfNormal", some [("sd", Val.num 1)]⟩⟩⟩

/-- A grouped random-effect term with an unknown prior family and a
zero-size level axis (values of shape (1, 1, 0)): the per-level loop
never runs, so the unknown name is never resolved. -/
def tC5 : Term :=
  ⟨"z", .cube [[[]]], true, some ⟨[]⟩,
   ⟨"NotARealDistribution", [], none⟩⟩

/-- The residual-noise entry of the external `default_priors` table. -/
def dp0 : String × List (String × Val) :=
  ("HalfCauchy", [("beta", Val.num 10)])

/-- A model holding only `tC5`. -/
def mC5 : ModelSpec := ⟨[tC5], [0, 1]⟩

/-- A fixed-effect term with an unknown prior family. -/
def tC5b : Term :=
  ⟨"q", .mat [[1]], false, none, ⟨"NotARealDistribution", [], none⟩⟩

/-- A model holding only `tC5b`. -/
def mC5b : ModelSpec := ⟨[tC5b], [0]⟩

/-- A grouped random-effect term with an unknown prior family and a
positive level axis (values of shape (1, 1, 1)): the per-level loop does
run, so the unknown name is resolved and the build fails. -/
def tC5g : Term :=
  ⟨"qg", .cube [[[1]]], true, some ⟨["a"]⟩,
   ⟨"NotARealDistribution", [], none⟩⟩

/-- A model holding only `tC5g`. -/
def mC5g : ModelSpec := ⟨[tC5g], [0]⟩

/-- The 3-d values of `tC8`: level `a` has one active column, level `b`
is an all-zero slice. -/
def cC8 : List (List (List Int)) :=
  [[[1, 0], [0, 0]], [[2, 0], [0, 0]]]

/-- A grouped random-effect term whose second level has zero active
columns. -/
def tC8 : Term :=
  ⟨"h8", .cube cC8, true, some ⟨["a", "b"]⟩, ⟨"Normal", [], none⟩⟩

/-- An ungrouped random-effect term whose prior args lack `sd`. -/
def tC9 : Term :=
  ⟨"r9", .mat [[1], [2]], true, none,
   ⟨"Normal", [("mu", Val.num 0)], none⟩⟩

/-- A concrete sampling engine standing in for `pm.sample`. -/
def engine0 : Val → List (String × Val) → Trace :=
  fun _ _ => [("b_x", [0, 1, 2])]

theorem scopeAdds_length (f g : Nat → Val) :
    ∀ idxs : List Nat, (scopeAdds f g idxs).length = 2 * idxs.length := by
  intro idxs
  induction idxs with
  | nil => simp [scopeAdds]
  | cons i rest ih => simp [scopeAdds, ih]; ring

theorem processLevels_spec (label sname dname : String)
    (sargs dargs : List (String × Val)) (c : List (List (List Int)))
    (levels : List String)
    (hsn : pmHasAttr sname = true) (hdn : pmHasAttr dname = true)
    (idxs : List Nat) :
    ∀ st : BState, (∀ i ∈ idxs, i < levels.length) →
    processLevels label sname dname sargs dargs c levels idxs st =
      ({ st with
         scope := st.scope ++
           scopeAdds (levelSigmaD label (sname, sargs) levels)
             (levelUD label dname dargs c levels) idxs,
         mu := st.mu ++ idxs.map (levelContrib label dname dargs c levels) },
       .ok ()) := by
  induction idxs with
  | nil => intro st h; simp [processLevels, scopeAdds]
  | cons i rest ih =>
    intro st h
    have hi : i < levels.length := h i (by simp)
    have hlev : levels[i]? = some levels[i] := List.getElem?_eq_getElem hi
    rw [processLevels, hlev]
    simp only [buildDistS, hsn, hdn, if_true]
    rw [ih _ (fun j hj => h j (by simp [hj]))]
    simp [addScope, addMu, scopeAdds, levelSigmaD, levelUD, levelContrib,
      levelName, hlev, List.append_assoc]

theorem processTerm_fixed_spec (st : BState) (t : Term) (k : Nat)
    (hr : t.random = false) (hk : (tshape t.values)[1]? = some k)
    (hdn : pmHasAttr t.prior.name = true) :
    processTerm st t =
      ({ st with
         scope := st.scope ++ [fixedBD t],
         mu := st.mu ++ [Contrib.dotCol (fixedVals t) (fixedBD t)] },
       .ok { t with values := fixedVals t }) := by
  rw [processTerm, hk]
  simp [hr, buildDistS, hdn, addScope, addMu, fixedBD, fixedVals]

theorem processTerm_rand_nosplit_spec (st : BState) (t : Term) (k : Nat)
    (hr : t.random = true) (hs : t.split_by = none)
    (hk : (tshape t.values)[1]? = some k)
    (hsn : pmHasAttr (resolveSigma t.prior).1 = true)
    (hdn : pmHasAttr t.prior.name = true) :
    processTerm st t =
      ({ st with
         scope := st.scope ++ [noSplitSigmaD t, noSplitUD t k],
         mu := st.mu ++ [Contrib.dotU t.values (noSplitUD t k)] },
       .ok { t with prior := { t.prior with args := noSplitArgs t } }) := by
  rw [processTerm, hk]
  simp [hr, hs, buildDistS, hsn, hdn, addScope, addMu, noSplitSigmaD,
    noSplitUD, noSplitArgs, List.append_assoc]

theorem processTerm_rand_split_spec (st : BState) (t : Term)
    (g : GroupingFactor) (c : List (List (List Int)))
    (hr : t.random = true) (hs : t.split_by = some g)
    (hv : t.values = .cube c) (hL : cubeLevs c = g.levels.length)
    (hsn : pmHasAttr (resolveSigma t.prior).1 = true)
    (hdn : pmHasAttr t.prior.name = true) :
    processTerm st t =
      ({ st with
         scope := st.scope ++
           scopeAdds (levelSigmaD t.label (resolveSigma t.prior) g.levels)
             (levelUD t.label t.prior.name t.prior.args c g.levels)
             (List.range (cubeLevs c)),
         mu := st.mu ++ (List.range (cubeLevs c)).map
           (levelContrib t.label t.prior.name t.prior.args c g.levels) },
       .ok t) := by
  have hidx : ∀ i ∈ List.range (cubeLevs c), i < g.levels.length := by
    intro i hi; rw [← hL]; simpa using hi
  rw [processTerm, hv]
  simp only [tshape, List.getElem?_cons_succ, List.getElem?_cons_zero,
    hr, if_true, hs]
  rw [processLevels_spec t.label (resolveSigma t.prior).1 t.prior.name
    (resolveSigma t.prior).2 t.prior.args c g.levels hsn hdn
    (List.range (cubeLevs c)) st hidx]

theorem lookup_setKey_self (m : List (String × Val)) (k : String) (v : Val) :
    lookupKey k (setKey m k v) = some v := by
  induction m with
  | nil => simp [setKey, lookupKey]
  | cons p rest ih =>
    by_cases h : p.1 = k
    · simp [setKey, h, lookupKey]
    · simp [setKey, h, lookupKey, ih]

theorem resolveSigma_incomplete (p : Prior)
    (h : sigmaIncomplete p = true) :
    resolveSigma p = ("HalfCauchy", defaultSigmaArgs) := by
  unfold resolveSigma
  unfold sigmaIncomplete at h
  cases hp : p.sigma with
  | none => rfl
  | some s =>
    rw [hp] at h
    cases hn : s.name with
    | none => cases ha : s.args with
      | none => simp [hn, ha]
      | some a => simp [hn, ha]
    | some n => cases ha : s.args with
      | none => simp [hn, ha]
      | some a => simp [hn, ha] at h

/-! Frame lemmas: every state update of the build pass only appends to
the model scope and to `mu`; `dists`, `shared_params` and the likelihood
slot are never written by term processing. -/

theorem buildDistS_shape (st : BState) (l f : String) (sh : Option Nat)
    (a : List (String × Val)) :
    ∃ ds, (buildDistS st l f sh a).1 =
      { st with scope := st.scope ++ ds } := by
  unfold buildDistS
  split
  · exact ⟨[Val.distV l f sh a], rfl⟩
  · exact ⟨[], by simp⟩

theorem processLevels_shape (label sname dname : String)
    (sargs dargs : List (String × Val)) (c : List (List (List Int)))
    (levels : List String) (idxs : List Nat) :
    ∀ st : BState, ∃ ds ms,
      (processLevels label sname dname sargs dargs c levels idxs st).1 =
        { st with scope := st.scope ++ ds, mu := st.mu ++ ms } := by
  induction idxs with
  | nil => intro st; exact ⟨[], [], by simp [processLevels]⟩
  | cons i rest ih =>
    intro st
    rw [processLevels]
    cases hlev : levels[i]? with
    | none => exact ⟨[], [], by simp⟩
    | some lev =>
      obtain ⟨d1, hd1⟩ := buildDistS_shape st
        ("sigma_" ++ (label ++ "_" ++ lev)) sname none sargs
      rcases h1 : buildDistS st ("sigma_" ++ (label ++ "_" ++ lev)) sname
          none sargs with ⟨st1, r1⟩
      rw [h1] at hd1
      dsimp only at hd1
      cases r1 with
      | error e =>
        refine ⟨d1, [], ?_⟩
        dsimp only
        rw [h1]
        dsimp only
        rw [hd1]
        simp
      | ok sg =>
        obtain ⟨d2, hd2⟩ := buildDistS_shape st1
          ("u_" ++ (label ++ "_" ++ lev)) dname
          (some (countActive (sliceLevel c i))) dargs
        rcases h2 : buildDistS st1 ("u_" ++ (label ++ "_" ++ lev)) dname
            (some (countActive (sliceLevel c i))) dargs with ⟨st2, r2⟩
        rw [h2] at hd2
        dsimp only at hd2
        cases r2 with
        | error e =>
          refine ⟨d1 ++ d2, [], ?_⟩
          dsimp only
          rw [h1]
          dsimp only
          rw [h2]
          dsimp only
          rw [hd2, hd1]
          simp
        | ok u =>
          obtain ⟨d3, m3, hd3⟩ := ih
            (addMu st2 (.dotCol (.mat (selectCols (sliceLevel c i))) u))
          refine ⟨d1 ++ (d2 ++ d3),
            Contrib.dotCol (.mat (selectCols (sliceLevel c i))) u :: m3,
            ?_⟩
          dsimp only
          rw [h1]
          dsimp only
          rw [h2]
          dsimp only
          rw [hd3, hd2, hd1]
          simp [addMu, List.append_assoc]

theorem processTerm_shape (st : BState) (t : Term) :
    ∃ ds ms, (processTerm st t).1 =
      { st with scope := st.scope ++ ds, mu := st.mu ++ ms } := by
  rw [processTerm]
  cases hsh : (tshape t.values)[1]? with
  | none => exact ⟨[], [], by simp⟩
  | some k =>
    dsimp only
    cases hr : t.random with
    | false =>
      rw [if_neg (by simp)]
      obtain ⟨d1, hd1⟩ := buildDistS_shape st ("b_" ++ t.label)
        t.prior.name (some (lastDim t.values)) t.prior.args
      rcases h1 : buildDistS st ("b_" ++ t.label) t.prior.name
          (some (lastDim t.values)) t.prior.args with ⟨st1, r1⟩
      rw [h1] at hd1
      dsimp only at hd1
      cases r1 with
      | error e =>
        refine ⟨d1, [], ?_⟩
        dsimp only
        rw [hd1]
        simp
      | ok b =>
        refine ⟨d1, [Contrib.dotCol (if t.split_by.isSome then
          squeezeT t.values else t.values) b], ?_⟩
        dsimp only
        rw [hd1]
        simp [addMu]
    | true =>
      rw [if_pos rfl]
      cases hsb : t.split_by with
      | none =>
        obtain ⟨d1, hd1⟩ := buildDistS_shape st ("sigma_" ++ t.label)
          (resolveSigma t.prior).1 none (resolveSigma t.prior).2
        rcases h1 : buildDistS st ("sigma_" ++ t.label)
            (resolveSigma t.prior).1 none (resolveSigma t.prior).2
          with ⟨st1, r1⟩
        rw [h1] at hd1
        dsimp only at hd1
        cases r1 with
        | error e =>
          refine ⟨d1, [], ?_⟩
          dsimp only
          rw [hd1]
          simp
        | ok sg =>
          obtain ⟨d2, hd2⟩ := buildDistS_shape st1 ("u_" ++ t.label)
            t.prior.name (some k) (setKey t.prior.args "sd" sg)
          rcases h2 : buildDistS st1 ("u_" ++ t.label) t.prior.name
              (some k) (setKey t.prior.args "sd" sg) with ⟨st2, r2⟩
          rw [h2] at hd2
          dsimp only at hd2
          cases r2 with
          | error e =>
            refine ⟨d1 ++ d2, [], ?_⟩
            dsimp only
            rw [h2]
            dsimp only
            rw [hd2, hd1]
            simp
          | ok u =>
            refine ⟨d1 ++ d2, [Contrib.dotU t.values u], ?_⟩
            dsimp only
            rw [h2]
            dsimp only
            rw [hd2, hd1]
            simp [addMu]
      | some g =>
        cases hv : t.values with
        | scalar x => exact ⟨[], [], by simp⟩
        | vec v =>
          refine ⟨[], [], ?_⟩
          dsimp only
          split <;> simp
        | mat m =>
          refine ⟨[], [], ?_⟩
          dsimp only
          split <;> simp
        | cube c =>
          obtain ⟨ds, ms, hd⟩ := processLevels_shape t.label
            (resolveSigma t.prior).1 t.prior.name (resolveSigma t.prior).2
            t.prior.args c g.levels (List.range (cubeLevs c)) st
          rcases h1 : processLevels t.label (resolveSigma t.prior).1
              t.prior.name (resolveSigma t.prior).2 t.prior.args c
              g.levels (List.range (cubeLevs c)) st with ⟨st1, r1⟩
          rw [h1] at hd
          dsimp only at hd
          cases r1 with
          | error e =>
            refine ⟨ds, ms, ?_⟩
            dsimp only
            rw [h1]
            exact hd
          | ok u =>
            refine ⟨ds, ms, ?_⟩
            dsimp only
            rw [h1]
            exact hd

theorem processTerms_shape (ts : List Term) :
    ∀ st : BState, ∃ ds ms, (processTerms st ts).1 =
      { st with scope := st.scope ++ ds, mu := st.mu ++ ms } := by
  induction ts with
  | nil => intro st; exact ⟨[], [], by simp [processTerms]⟩
  | cons t rest ih =>
    intro st
    rw [processTerms]
    obtain ⟨d1, m1, hd1⟩ := processTerm_shape st t
    rcases h1 : processTerm st t with ⟨st1, r1⟩
    rw [h1] at hd1
    dsimp only at hd1
    cases r1 with
    | error e =>
      refine ⟨d1, m1, ?_⟩
      dsimp only
      exact hd1
    | ok t' =>
      obtain ⟨d2, m2, hd2⟩ := ih st1
      rcases h2 : processTerms st1 rest with ⟨st2, r2⟩
      rw [h2] at hd2
      dsimp only at hd2
      cases r2 with
      | error e =>
        refine ⟨d1 ++ d2, m1 ++ m2, ?_⟩
        dsimp only
        rw [h2]
        dsimp only
        rw [hd2, hd1]
        simp
      | ok rest' =>
        refine ⟨d1 ++ d2, m1 ++ m2, ?_⟩
        dsimp only
        rw [h2]
        dsimp only
        rw [hd2, hd1]
        simp

/-- An exception raised while processing a term aborts the whole loop
with that exception and with the state as mutated so far. -/
theorem processTerms_prefix_error (ts1 : List Term) :
    ∀ (st st1 st2 : BState) (ts1' : List Term) (t : Term)
      (e : BuildError) (ts2 : List Term),
    processTerms st ts1 = (st1, .ok ts1') →
    processTerm st1 t = (st2, .error e) →
    processTerms st (ts1 ++ t :: ts2) = (st2, .error e) := by
  induction ts1 with
  | nil =>
    intro st st1 st2 ts1' t e ts2 h1 h2
    rw [processTerms] at h1
    injection h1 with h1a h1b
    subst h1a
    rw [List.nil_append, processTerms, h2]
  | cons a rest ih =>
    intro st st1 st2 ts1' t e ts2 h1 h2
    rw [processTerms] at h1
    rcases ha : processTerm st a with ⟨sta, ra⟩
    rw [ha] at h1
    cases ra with
    | error e0 => simp at h1
    | ok a' =>
      dsimp only at h1
      rcases hrest : processTerms sta rest with ⟨stb, rb⟩
      rw [hrest] at h1
      cases rb with
      | error e0 => simp at h1
      | ok rest' =>
        simp only [Prod.mk.injEq] at h1
        obtain ⟨hb, hok⟩ := h1
        rw [← hb] at h2
        rw [List.cons_append, processTerms, ha]
        dsimp only
        rw [ih sta stb st2 rest' t e ts2 hrest h2]

/-! Error behaviour: a term whose prior names an unknown family raises
the `ValueError` of `_build_dist` at the point where the name is
resolved. -/

theorem processTerm_unknown_fixed (st : BState) (t : Term) (k : Nat)
    (hr : t.random = false) (hk : (tshape t.values)[1]? = some k)
    (hun : pmHasAttr t.prior.name = false) :
    (processTerm st t).2 = .error (.unknownDistribution t.prior.name) := by
  rw [processTerm, hk]
  simp [hr, buildDistS, hun]

theorem processTerm_unknown_rand_nosplit (st : BState) (t : Term) (k : Nat)
    (hr : t.random = true) (hs : t.split_by = none)
    (hk : (tshape t.values)[1]? = some k)
    (hsn : pmHasAttr (resolveSigma t.prior).1 = true)
    (hun : pmHasAttr t.prior.name = false) :
    (processTerm st t).2 = .error (.unknownDistribution t.prior.name) := by
  rw [processTerm, hk]
  simp [hr, hs, buildDistS, hsn, hun]

theorem processTerm_unknown_rand_split (st : BState) (t : Term)
    (g : GroupingFactor) (c : List (List (List Int)))
    (hr : t.random = true) (hs : t.split_by = some g)
    (hv : t.values = .cube c) (hL0 : 0 < cubeLevs c)
    (hg0 : 0 < g.levels.length)
    (hsn : pmHasAttr (resolveSigma t.prior).1 = true)
    (hun : pmHasAttr t.prior.name = false) :
    (processTerm st t).2 = .error (.unknownDistribution t.prior.name) := by
  rw [processTerm, hv]
  simp only [tshape, List.getElem?_cons_succ, List.getElem?_cons_zero,
    hr, if_true, hs]
  obtain ⟨l, hl⟩ : ∃ l, cubeLevs c = l + 1 :=
    ⟨cubeLevs c - 1, by omega⟩
  rw [hl, List.range_succ_eq_map, processLevels,
    List.getElem?_eq_getElem hg0]
  simp [buildDistS, hsn, hun]

/-! Zero-column levels: an all-zero slice has no active column, the
selected sub-matrix has empty rows, and its matrix-vector product with
any effect values is the zero vector. -/

theorem getD_zero_of_all_zero (row : List Int) (j : Nat)
    (h : ∀ x ∈ row, x = 0) : row.getD j 0 = 0 := by
  cases hj : row[j]? with
  | none => simp [List.getD_eq_getElem?_getD, hj]
  | some x =>
    have hx : x ∈ row := List.getElem?_mem hj
    simp [List.getD_eq_getElem?_getD, hj, h x hx]

theorem colActive_false_of_zero (m : List (List Int)) (j : Nat)
    (h : ∀ row ∈ m, ∀ x ∈ row, x = 0) : colActive m j = false := by
  unfold colActive
  rw [List.any_eq_false]
  intro row hrow
  rw [getD_zero_of_all_zero row j (h row hrow)]
  simp

theorem countActive_eq_zero (m : List (List Int))
    (h : ∀ row ∈ m, ∀ x ∈ row, x = 0) : countActive m = 0 := by
  unfold countActive
  rw [List.length_eq_zero, List.filter_eq_nil_iff]
  intro j hj
  simp [colActive_false_of_zero m j h]

theorem matVec_selectCols_zero (m : List (List Int))
    (h : ∀ row ∈ m, ∀ x ∈ row, x = 0) (uvals : List Int) :
    matVec (selectCols m) uvals = List.replicate m.length 0 := by
  unfold matVec selectCols
  rw [List.map_map]
  apply List.eq_replicate_iff.2
  constructor
  · simp
  · intro b hb
    obtain ⟨row, hrow, hbw⟩ := List.mem_map.1 hb
    have hnil : (List.range (matCols m)).filterMap
        (fun j => if colActive m j then some (row.getD j 0) else none)
        = [] := by
      rw [List.filterMap_eq_nil_iff]
      intro j hj
      simp [colActive_false_of_zero m j h]
    rw [← hbw]
    dsimp only [Function.comp]
    rw [hnil]
    simp [dotRow]

/-- C1: for every random-effect term with a `split_by` grouping factor of
`L` levels (its values' level axis matching), the build registers, for
each level index `i` in `0..L-1`, one sigma distribution named
`sigma_<label>_<level>` and one effect-vector distribution named
`u_<label>_<level>` whose size is the number of active columns of that
level's slice (a column being active iff some row holds a nonzero value
there), adds `dot(selected, u)` promoted to a column vector to `mu`, and
registers exactly `L` (sigma, effect-vector) pairs in total. -/
theorem claim1_grouped_registration (st : BState) (t : Term)
    (g : GroupingFactor) (c : List (List (List Int)))
    (hr : t.random = true) (hs : t.split_by = some g)
    (hv : t.values = .cube c) (hL : cubeLevs c = g.levels.length)
    (hsn : pmHasAttr (resolveSigma t.prior).1 = true)
    (hdn : pmHasAttr t.prior.name = true) :
    processTerm st t =
      ({ st with
         scope := st.scope ++
           scopeAdds (levelSigmaD t.label (resolveSigma t.prior) g.levels)
             (levelUD t.label t.prior.name t.prior.args c g.levels)
             (List.range (cubeLevs c)),
         mu := st.mu ++ (List.range (cubeLevs c)).map
           (levelContrib t.label t.prior.name t.prior.args c g.levels) },
       .ok t) ∧
    (processTerm st t).1.scope.length =
      st.scope.length + 2 * g.levels.length := by
  have h := processTerm_rand_split_spec st t g c hr hs hv hL hsn hdn
  refine ⟨h, ?_⟩
  rw [h]
  simp [scopeAdds_length, hL]

/-- C1 witness: `claim1_grouped_registration` on the concrete grouped
term `tC1`, whose levels `a` and `b` each have one active column. -/
theorem claim1_witness :
    processTerm BState.empty tC1 =
      (⟨[Val.distV "sigma_g_a" "HalfCauchy" none [("beta", Val.num 10)],
         Val.distV "u_g_a" "Normal" (some 1) [],
         Val.distV "sigma_g_b" "HalfCauchy" none [("beta", Val.num 10)],
         Val.distV "u_g_b" "Normal" (some 1) []],
        [Contrib.dotCol (.mat [[1], [3]])
           (Val.distV "u_g_a" "Normal" (some 1) []),
         Contrib.dotCol (.mat [[2], [0]])
           (Val.distV "u_g_b" "Normal" (some 1) [])],
        [], [], none⟩,
       .ok tC1) ∧
    (processTerm BState.empty tC1).1.scope.length = 0 + 2 * 2 :=
  claim1_grouped_registration BState.empty tC1 ⟨["a", "b"]⟩
    [[[1, 0], [0, 2]], [[3, 0], [0, 0]]] rfl rfl rfl rfl rfl rfl

/-- C2 counterexample: on the fixed-effect term `tC2` (values of shape
(2, 3, 1), carrying a `split_by` factor) the registered coefficient
`b_x` has shape 1 — the last dimension as read before the squeeze —
whereas the last dimension of the squeezed values is 3, refuting the
claim that the coefficient's shape equals the post-squeeze last
dimension. -/
theorem claim2_counterexample :
    (processTerm BState.empty tC2).1.scope =
      [Val.distV "b_x" "Normal" (some 1) []] ∧
    lastDim (squeezeT tC2.values) = 3 ∧ (1 : Nat) ≠ 3 :=
  ⟨rfl, rfl, by decide⟩

/-- C2 amended: for every fixed-effect term, the build registers one
coefficient distribution named `b_<label>` whose shape is the last
dimension of the term's values as given (read before any squeeze); when
the term carries a `split_by` factor the values are squeezed only
afterwards, and the dot product of the (possibly squeezed) values with
the coefficient, reshaped to a column vector, is added to `mu`, the
squeezed values being written back to the term. -/
theorem claim2_amended (st : BState) (t : Term) (k : Nat)
    (hr : t.random = false) (hk : (tshape t.values)[1]? = some k)
    (hdn : pmHasAttr t.prior.name = true) :
    processTerm st t =
      ({ st with
         scope := st.scope ++ [fixedBD t],
         mu := st.mu ++ [Contrib.dotCol (fixedVals t) (fixedBD t)] },
       .ok { t with values := fixedVals t }) :=
  processTerm_fixed_spec st t k hr hk hdn

/-- C2 amended witness: `claim2_amended` on the concrete fixed term
`tC2w` of shape (2, 1, 2), squeezed to (2, 2) with coefficient shape
2. -/
theorem claim2_amended_witness :
    processTerm BState.empty tC2w =
      (⟨[Val.distV "b_w" "Normal" (some 2) []],
        [Contrib.dotCol (.mat [[1, 2], [3, 4]])
          (Val.distV "b_w" "Normal" (some 2) [])],
        [], [], none⟩,
       .ok { tC2w with values := .mat [[1, 2], [3, 4]] }) :=
  claim2_amended BState.empty tC2w 1 rfl rfl rfl

/-- C3: for every random-effect term whose sigma sub-specification is
absent or incomplete, the complete default — family HalfCauchy with
scale parameter `beta = 10` — is substituted (no partial merge), and
every sigma distribution the build constructs for the term — the single
`sigma_<label>` of the ungrouped path as well as each per-level
`sigma_<label>_<level>` of the grouped path (the try/except feeds both
branches) — carries exactly that family and parameter. -/
theorem claim3_sigma_default (st : BState) (t : Term) (k : Nat)
    (hr : t.random = true)
    (hk : (tshape t.values)[1]? = some k)
    (hdn : pmHasAttr t.prior.name = true)
    (hinc : sigmaIncomplete t.prior = true) :
    resolveSigma t.prior = ("HalfCauchy", [("beta", Val.num 10)]) ∧
    (t.split_by = none →
      (processTerm st t).1.scope =
        st.scope ++
          [Val.distV ("sigma_" ++ t.label) "HalfCauchy" none
             [("beta", Val.num 10)],
           noSplitUD t k]) ∧
    (∀ (g : GroupingFactor) (c : List (List (List Int))),
      t.split_by = some g → t.values = .cube c →
      cubeLevs c = g.levels.length →
      (∀ i : Nat,
        levelSigmaD t.label (resolveSigma t.prior) g.levels i =
          Val.distV ("sigma_" ++ levelName t.label g.levels i)
            "HalfCauchy" none [("beta", Val.num 10)]) ∧
      (processTerm st t).1.scope =
        st.scope ++
          scopeAdds
            (fun i => Val.distV ("sigma_" ++ levelName t.label g.levels i)
              "HalfCauchy" none [("beta", Val.num 10)])
            (levelUD t.label t.prior.name t.prior.args c g.levels)
            (List.range (cubeLevs c))) := by
  have hres := resolveSigma_incomplete t.prior hinc
  have hsn : pmHasAttr (resolveSigma t.prior).1 = true := by
    rw [hres]; rfl
  refine ⟨by rw [hres]; rfl, ?_, ?_⟩
  · intro hs
    have h := processTerm_rand_nosplit_spec st t k hr hs hk hsn hdn
    rw [h]
    simp [noSplitSigmaD, hres, defaultSigmaArgs]
  · intro g c hs hv hL
    have h := processTerm_rand_split_spec st t g c hr hs hv hL hsn hdn
    constructor
    · intro i
      rw [levelSigmaD, hres]
      rfl
    · rw [h]
      dsimp only
      rw [hres]
      rfl

/-- C3 witness: `claim3_sigma_default` on the concrete ungrouped term
`tC3` (name without args) and on the concrete grouped term `tC3g` (args
without name): both partial overrides are discarded whole and every
constructed sigma is a HalfCauchy with beta = 10. -/
theorem claim3_witness :
    (resolveSigma tC3.prior = ("HalfCauchy", [("beta", Val.num 10)]) ∧
     (processTerm BState.empty tC3).1.scope =
       [Val.distV "sigma_v" "HalfCauchy" none [("beta", Val.num 10)],
        noSplitUD tC3 2]) ∧
    (resolveSigma tC3g.prior = ("HalfCauchy", [("beta", Val.num 10)]) ∧
     levelSigmaD "vg" (resolveSigma tC3g.prior) ["a"] 0 =
       Val.distV "sigma_vg_a" "HalfCauchy" none [("beta", Val.num 10)] ∧
     (processTerm BState.empty tC3g).1.scope =
       [Val.distV "sigma_vg_a" "HalfCauchy" none [("beta", Val.num 10)],
        Val.distV "u_vg_a" "Normal" (some 2) []]) := by
  have h1 := claim3_sigma_default BState.empty tC3 2 rfl rfl rfl rfl
  have h2 := claim3_sigma_default BState.empty tC3g 2 rfl rfl rfl rfl
  have h2g := h2.2.2 ⟨["a"]⟩ [[[5], [0]], [[0], [7]]] rfl rfl rfl
  exact ⟨⟨h1.1, h1.2.1 rfl⟩, ⟨h2.1, h2g.1 0, h2g.2⟩⟩

/-- C4: for every random-effect term without `split_by`, the build
registers exactly one sigma distribution named `sigma_<label>`, injects
it as the `sd` argument of the main effect prior, registers exactly one
effect-vector distribution named `u_<label>` shaped to `n_cols`
(`values.shape[1]`), and adds `dot(values, u)` to `mu`. -/
theorem claim4_rand_nosplit (st : BState) (t : Term) (k : Nat)
    (hr : t.random = true) (hs : t.split_by = none)
    (hk : (tshape t.values)[1]? = some k)
    (hsn : pmHasAttr (resolveSigma t.prior).1 = true)
    (hdn : pmHasAttr t.prior.name = true) :
    processTerm st t =
      ({ st with
         scope := st.scope ++ [noSplitSigmaD t, noSplitUD t k],
         mu := st.mu ++ [Contrib.dotU t.values (noSplitUD t k)] },
       .ok { t with prior := { t.prior with args := noSplitArgs t } }) :=
  processTerm_rand_nosplit_spec st t k hr hs hk hsn hdn

/-- C4 witness: `claim4_rand_nosplit` on the concrete term `tC4` with a
complete sigma override: one sigma, one effect vector of size 2, and the
`values · u` contribution. -/
theorem claim4_witness :
    processTerm BState.empty tC4 =
      (⟨[Val.distV "sigma_x4" "HalfNormal" none [("sd", Val.num 1)],
         Val.distV "u_x4" "Normal" (some 2)
           [("sd", Val.distV "sigma_x4" "HalfNormal" none
             [("sd", Val.num 1)])]],
        [Contrib.dotU (.mat [[1, 2], [3, 4]])
          (Val.distV "u_x4" "Normal" (some 2)
            [("sd", Val.distV "sigma_x4" "HalfNormal" none
              [("sd", Val.num 1)])])],
        [], [], none⟩,
       .ok { tC4 with prior := { tC4.prior with args :=
         [("sd", Val.distV "sigma_x4" "HalfNormal" none
           [("sd", Val.num 1)])] } }) :=
  claim4_rand_nosplit BState.empty tC4 2 rfl rfl rfl rfl rfl

/-- C5 counterexample: the model `mC5` contains the term `tC5`, whose
prior names the unknown family `NotARealDistribution`, yet `build`
succeeds — the term is a grouped random effect whose values have a
zero-size level axis, so the per-level loop never runs and the name is
never resolved.  This refutes the claim that every build containing an
unknown-family prior fails. -/
theorem claim5_counterexample :
    pmHasAttr "NotARealDistribution" = false ∧
    tC5.prior.name = "NotARealDistribution" ∧
    (build dp0 mC5 Backend.init true).2 = .ok [tC5] ∧
    ((build dp0 mC5 Backend.init true).1).state.yobs.isSome = true :=
  ⟨rfl, rfl, rfl, rfl⟩

/-- C5 amended: if some term's prior names an unknown family and the
build actually resolves that name — the earlier terms process without
an exception and the term is a fixed effect, an ungrouped random effect
whose sigma family is known, or a grouped random effect with a positive
level axis, nonempty levels and a known sigma family — then `build`
raises the error naming the unknown family, and the resulting state
carries no observation likelihood (it is unusable for sampling) until
`reset()` rebuilds it.  (Only a grouped random-effect term with a
zero-size level axis escapes: its prior name is never resolved, see the
counterexample.) -/
theorem claim5_amended (dp : String × List (String × Val)) (b : Backend)
    (m : ModelSpec) (ts1 ts2 : List Term) (t : Term) (ts1' : List Term)
    (k : Nat)
    (hm : m.terms = ts1 ++ t :: ts2)
    (hpre : (processTerms BState.empty ts1).2 = .ok ts1')
    (hk : (tshape t.values)[1]? = some k)
    (hun : pmHasAttr t.prior.name = false)
    (hcase : t.random = false ∨
      (t.random = true ∧ t.split_by = none ∧
        pmHasAttr (resolveSigma t.prior).1 = true) ∨
      (t.random = true ∧ pmHasAttr (resolveSigma t.prior).1 = true ∧
        ∃ (g : GroupingFactor) (c : List (List (List Int))),
          t.split_by = some g ∧ t.values = TValues.cube c ∧
          0 < cubeLevs c ∧ 0 < g.levels.length)) :
    (build dp m b true).2 =
      .error (.unknownDistribution t.prior.name) ∧
    ((build dp m b true).1).state.yobs = none := by
  have hpair : processTerms BState.empty ts1 =
      ((processTerms BState.empty ts1).1, Except.ok ts1') := by
    rw [← hpre]
  set st1 := (processTerms BState.empty ts1).1 with hst1
  have herr2 : (processTerm st1 t).2 =
      Except.error (BuildError.unknownDistribution t.prior.name) := by
    rcases hcase with hf | ⟨hr, hs, hsn⟩ | ⟨hr, hsn, g, c, hs, hv, hL0, hg0⟩
    · exact processTerm_unknown_fixed st1 t k hf hk hun
    · exact processTerm_unknown_rand_nosplit st1 t k hr hs hk hsn hun
    · exact processTerm_unknown_rand_split st1 t g c hr hs hv hL0 hg0
        hsn hun
  have herr : processTerm st1 t = ((processTerm st1 t).1,
      Except.error (BuildError.unknownDistribution t.prior.name)) := by
    rw [← herr2]
  have hterms := processTerms_prefix_error ts1 BState.empty st1
    (processTerm st1 t).1 ts1' t
    (BuildError.unknownDistribution t.prior.name) ts2 hpair herr
  have hbc : buildCore dp m BState.empty = ((processTerm st1 t).1,
      Except.error (BuildError.unknownDistribution t.prior.name)) := by
    rw [buildCore, hm, hterms]
  constructor
  · rw [show (build dp m b true).2 = (buildCore dp m BState.empty).2
      from rfl, hbc]
  · rw [show ((build dp m b true).1).state =
      (buildCore dp m BState.empty).1 from rfl, hbc]
    obtain ⟨ds, ms, hsh1⟩ := processTerm_shape st1 t
    rw [hsh1]
    obtain ⟨ds0, ms0, hsh0⟩ := processTerms_shape ts1 BState.empty
    dsimp only
    rw [hst1, hsh0]
    rfl

/-- C5 amended witness: `claim5_amended` on the single-term model
`mC5b`, whose fixed-effect term names `NotARealDistribution`, and on
the single-term model `mC5g`, whose grouped random-effect term with a
positive level axis names the same unknown family: both builds fail
with the error naming it and leave no likelihood attached. -/
theorem claim5_witness :
    ((build dp0 mC5b Backend.init true).2 =
       .error (.unknownDistribution "NotARealDistribution") ∧
     ((build dp0 mC5b Backend.init true).1).state.yobs = none) ∧
    ((build dp0 mC5g Backend.init true).2 =
       .error (.unknownDistribution "NotARealDistribution") ∧
     ((build dp0 mC5g Backend.init true).1).state.yobs = none) := by
  refine ⟨claim5_amended dp0 Backend.init mC5b [] [] tC5b [] 1
      rfl rfl rfl rfl (Or.inl rfl),
    claim5_amended dp0 Backend.init mC5g [] [] tC5g [] 1
      rfl rfl rfl rfl
      (Or.inr (Or.inr ⟨rfl, rfl, ⟨["a"]⟩, [[[1]]], rfl, rfl,
        by decide, by decide⟩))⟩

/-- C6: `build(model, reset=True)` run a second time discards all
distributions and accumulator state from the first call: the reset state
has `mu = 0`, empty `dists` and an empty model scope, and rebuilding
from the state left by any earlier build yields exactly the state of
building from a fresh backend — the second registry holds only the
second call's distributions. -/
theorem claim6_reset_discards (dp : String × List (String × Val))
    (m1 m2 : ModelSpec) (b : Backend) :
    BState.empty.mu = [] ∧ BState.empty.dists = [] ∧
    BState.empty.scope = [] ∧ (resetB b).state = BState.empty ∧
    ((build dp m2 ((build dp m1 b true).1) true).1).state =
      ((build dp m2 Backend.init true).1).state :=
  ⟨rfl, rfl, rfl, rfl, rfl⟩

/-- C7 counterexample: `run` stores the engine's trace on the backend
state but returns `none` (the Python function has no return statement),
so the returned value is not the cached trace, refuting the claim that
`run` returns the trace. -/
theorem claim7_counterexample :
    (run engine0 [("tune", Val.num 5)] Backend.init).2 = none ∧
    (run engine0 [("tune", Val.num 5)] Backend.init).1.trace =
      some [("b_x", [0, 1, 2])] ∧
    (run engine0 [("tune", Val.num 5)] Backend.init).2 ≠
      (run engine0 [("tune", Val.num 5)] Backend.init).1.trace := by
  refine ⟨rfl, rfl, ?_⟩
  intro h
  rw [show (run engine0 [("tune", Val.num 5)] Backend.init).2 =
      (none : Option Trace) from rfl,
    show (run engine0 [("tune", Val.num 5)] Backend.init).1.trace =
      some [("b_x", [0, 1, 2])] from rfl] at h
  exact Option.noConfusion h

/-- C7 amended: `run` accepts a `samples` keyword defaulting to 1000,
passes every other keyword through to the sampling engine, caches the
resulting trace on the backend state without touching the model state —
and returns `None`, not the trace. -/
theorem claim7_amended (engine : Val → List (String × Val) → Trace)
    (kwargs : List (String × Val)) (b : Backend) :
    (run engine kwargs b).2 = none ∧
    (run engine kwargs b).1.trace =
      some (engine ((lookupKey "samples" kwargs).getD (Val.num 1000))
        (eraseKey "samples" kwargs)) ∧
    (run engine kwargs b).1.state = b.state :=
  ⟨rfl, rfl, rfl⟩

/-- C8: for a grouped random-effect term one of whose levels has an
all-zero slice, that level has zero active columns, the effect vector
registered for it has size 0, the term is processed without an
exception, and the level's `mu` contribution evaluates to the zero
(column) vector whatever values the size-0 effect vector takes. -/
theorem claim8_zero_level (st : BState) (t : Term) (g : GroupingFactor)
    (c : List (List (List Int))) (i : Nat)
    (hr : t.random = true) (hs : t.split_by = some g)
    (hv : t.values = .cube c) (hL : cubeLevs c = g.levels.length)
    (hsn : pmHasAttr (resolveSigma t.prior).1 = true)
    (hdn : pmHasAttr t.prior.name = true)
    (hz : ∀ row ∈ sliceLevel c i, ∀ x ∈ row, x = 0) :
    (processTerm st t).2 = .ok t ∧
    countActive (sliceLevel c i) = 0 ∧
    levelUD t.label t.prior.name t.prior.args c g.levels i =
      Val.distV ("u_" ++ levelName t.label g.levels i) t.prior.name
        (some 0) t.prior.args ∧
    (processTerm st t).1.scope = st.scope ++
      scopeAdds (levelSigmaD t.label (resolveSigma t.prior) g.levels)
        (levelUD t.label t.prior.name t.prior.args c g.levels)
        (List.range (cubeLevs c)) ∧
    ∀ uvals : List Int, matVec (selectCols (sliceLevel c i)) uvals =
      List.replicate c.length 0 := by
  have h := processTerm_rand_split_spec st t g c hr hs hv hL hsn hdn
  have hca := countActive_eq_zero (sliceLevel c i) hz
  refine ⟨by rw [h], hca, by rw [levelUD, hca], by rw [h], ?_⟩
  intro uvals
  have hmv := matVec_selectCols_zero (sliceLevel c i) hz uvals
  rwa [show (sliceLevel c i).length = c.length by
    simp [sliceLevel]] at hmv

/-- C8 witness: `claim8_zero_level` on the concrete term `tC8`, whose
level 1 slice is all zeros: the build succeeds, the level has zero
active columns, and the contribution with the empty effect vector is the
zero vector of length 2. -/
theorem claim8_witness :
    (processTerm BState.empty tC8).2 = .ok tC8 ∧
    countActive (sliceLevel cC8 1) = 0 ∧
    matVec (selectCols (sliceLevel cC8 1)) [] = [0, 0] := by
  have h := claim8_zero_level BState.empty tC8 ⟨["a", "b"]⟩ cC8 1
    rfl rfl rfl rfl rfl rfl (by decide)
  exact ⟨h.1, h.2.1, h.2.2.2.2 []⟩

/-- C9: for a random-effect term without `split_by`, the build mutates
the caller's term in place: the built sigma distribution is written into
the term's own prior argument mapping under the key `sd` (the local
`dist_args` aliases `t.prior['args']`), so the term's prior
specification does not survive the build unchanged. -/
theorem claim9_inplace_mutation (st : BState) (t : Term) (k : Nat)
    (hr : t.random = true) (hs : t.split_by = none)
    (hk : (tshape t.values)[1]? = some k)
    (hsn : pmHasAttr (resolveSigma t.prior).1 = true)
    (hdn : pmHasAttr t.prior.name = true)
    (hno : lookupKey "sd" t.prior.args = none) :
    (processTerm st t).2 =
      .ok { t with prior := { t.prior with args := noSplitArgs t } } ∧
    lookupKey "sd" (noSplitArgs t) = some (noSplitSigmaD t) ∧
    ({ t with prior := { t.prior with args := noSplitArgs t } } : Term)
      ≠ t := by
  have h := processTerm_rand_nosplit_spec st t k hr hs hk hsn hdn
  refine ⟨by rw [h],
    lookup_setKey_self t.prior.args "sd" (noSplitSigmaD t), ?_⟩
  intro he
  have h2 := congrArg (fun x : Term => lookupKey "sd" x.prior.args) he
  dsimp only at h2
  rw [noSplitArgs, lookup_setKey_self, hno] at h2
  exact Option.noConfusion h2

/-- C9 witness: `claim9_inplace_mutation` on the concrete term `tC9`,
whose prior args initially lack `sd`: the returned term carries the
built sigma under `sd` and differs from the input term. -/
theorem claim9_witness :
    (processTerm BState.empty tC9).2 =
      .ok { tC9 with prior := { tC9.prior with args := noSplitArgs tC9 } } ∧
    lookupKey "sd" (noSplitArgs tC9) = some (noSplitSigmaD tC9) ∧
    ({ tC9 with prior := { tC9.prior with args := noSplitArgs tC9 } } :
      Term) ≠ tC9 :=
  claim9_inplace_mutation BState.empty tC9 1 rfl rfl rfl rfl rfl rfl

/-- C10: the `dists` registry and the `shared_params` cache are empty in
the reset state and stay empty throughout every build: term processing
never writes them (`_build_dist` returns the constructed distribution
without recording it there), and a full `build(reset=True)` pass ends
with both still empty. -/
theorem claim10_registries_stay_empty :
    (BState.empty.dists = [] ∧ BState.empty.shared_params = []) ∧
    (∀ (st : BState) (t : Term),
      (processTerm st t).1.dists = st.dists ∧
      (processTerm st t).1.shared_params = st.shared_params) ∧
    (∀ (dp : String × List (String × Val)) (m : ModelSpec) (b : Backend),
      ((build dp m b true).1).state.dists = [] ∧
      ((build dp m b true).1).state.shared_params = []) := by
  refine ⟨⟨rfl, rfl⟩, ?_, ?_⟩
  · intro st t
    obtain ⟨ds, ms, h⟩ := processTerm_shape st t
    rw [h]
    exact ⟨rfl, rfl⟩
  · intro dp m b
    obtain ⟨ds, ms, h0⟩ := processTerms_shape m.terms BState.empty
    rcases h1 : processTerms BState.empty m.terms with ⟨st1, r1⟩
    rw [h1] at h0
    dsimp only at h0
    have hb : ((build dp m b true).1).state =
        (buildCore dp m BState.empty).1 := rfl
    rw [hb, buildCore, h1]
    cases r1 with
    | error e =>
      dsimp only
      rw [h0]
      exact ⟨rfl, rfl⟩
    | ok ts =>
      dsimp only
      obtain ⟨d2, hd2⟩ := buildDistS_shape st1 "sigma" dp.1 none dp.2
      rcases h2 : buildDistS st1 "sigma" dp.1 none dp.2 with ⟨st2, r2⟩
      rw [h2] at hd2
      dsimp only at hd2
      cases r2 with
      | error e =>
        dsimp only
        rw [hd2, h0]
        exact ⟨rfl, rfl⟩
      | ok sg =>
        dsimp only
        rw [hd2, h0]
        exact ⟨rfl, rfl⟩

end Bambi
